import Mathlib

/-!
Verification of the key-frame selection and PII/redaction core of the
video-to-documentation pipeline.

The Python sources are embedded shallowly:

* `frame_selector.select_key_frames` works on per-frame combined scores
  (difference + stability, floats).  The selection logic (lines 93-158 of
  `frame_selector.py`) is embedded as a function of the list of combined
  scores (modelled as exact rationals) and the budget `max_embed`; the
  score-computation prefix (lines 28-91) is I/O over image files, and every
  claim about the selector quantifies over the resulting scores.  The frame
  paths themselves are represented by their indices `0 .. n-1`.
* Python's `int(len(frame_paths) * 0.7)` (and `* 0.9`) is a float
  computation; it is embedded exactly: the IEEE-754 double nearest to 0.7
  is the rational `6305039478318694 / 2^53`, the product with the exactly
  representable integer `n` is rounded to 53 significant bits with
  round-to-nearest, ties-to-even, and `int` truncates (= floor, positive).
* `pii_detector.luhn_check` and the credit-card / phone regular expressions
  are embedded as executable matchers over character lists, following the
  semantics of Python `re` (leftmost match, greedy options with
  backtracking, `findall` returning group captures when the pattern has a
  capturing group).
* `redactor.apply_redactions` in `black` mode is embedded as a pure
  transformation of a pixel map (PIL `ImageDraw.rectangle` with `fill`
  paints the closed rectangle, both corners included).
* The decision resolver and the redaction batch loop of
  `main.generate_final_pdf` (lines 351-405) are embedded with `Except`
  for Python exceptions, including Python's negative-index semantics of
  `frame_pii[dec["index"]]`.
-/

/-! ## Exact model of the Python float expressions `int(n * 0.7)`, `int(n * 0.9)` -/

/-- `2^53`, the scale of an IEEE-754 double mantissa. -/
def two53 : ℕ := 9007199254740992

/-- Numerator of the IEEE-754 double nearest to `0.7`, scaled by `2^53`. -/
def mant07 : ℕ := 6305039478318694

/-- Numerator of the IEEE-754 double nearest to `0.9`, scaled by `2^53`. -/
def mant09 : ℕ := 8106479329266893

/-- Number of binary digits of `m`, computed with explicit fuel so that the
kernel can evaluate it. -/
def bitsAux : ℕ → ℕ → ℕ
  | 0, _ => 0
  | fuel + 1, m => if m = 0 then 0 else bitsAux fuel (m / 2) + 1

/-- Number of binary digits of `m` (`0` for `0`). -/
def bits (m : ℕ) : ℕ := bitsAux m m

/-- Round the natural number `m` to 53 significant binary digits,
round-to-nearest, ties to even — the value (at the same scale) of the
IEEE-754 double nearest to `m`.  Exact for numbers below `2^53`. -/
def roundTo53 (m : ℕ) : ℕ :=
  let b := bits m
  if b ≤ 53 then m
  else
    let s := b - 53
    let q := m / 2 ^ s
    let r := m % 2 ^ s
    let h := 2 ^ (s - 1)
    let q' := if h < r then q + 1 else if r < h then q else if q % 2 = 1 then q + 1 else q
    q' * 2 ^ s

/-- `int(float(n) * c)` in Python, where `c` is the double `mant / 2^53`:
the exact product `n * mant / 2^53` is rounded to the nearest double and
then truncated.  Faithful for every `n < 2^53` (every `n` in scope). -/
def pyIntTimes (mant n : ℕ) : ℕ := roundTo53 (n * mant) / two53

/-- `int(n * 0.7)` — the completion-zone start / last-30%-boost boundary
(`frame_selector.py` lines 106 and 114). -/
def czStart (n : ℕ) : ℕ := pyIntTimes mant07 n

/-- `int(n * 0.9)` — the last-10%-boost boundary (`frame_selector.py`
lines 115 and 145). -/
def l10Start (n : ℕ) : ℕ := pyIntTimes mant09 n

/-! ## The key-frame selector (`frame_selector.py` lines 93-158) -/

/-- Python `range(a, b)` as a list: `[a, a+1, ..., b-1]`, empty for `b ≤ a`
(and for the negative upper bounds that truncated subtraction collapses
to `0`). -/
def pyRange (a b : ℕ) : List ℕ := (List.range (b - a)).map (a + ·)

/-- `selected_indices.add(idx)` on a Python set modelled as a
duplicate-free list: membership and cardinality (= length) are the set's. -/
def setAdd (x : ℕ) (l : List ℕ) : List ℕ := if x ∈ l then l else x :: l

/-- The mandatory seed indices (`frame_selector.py` lines 96-110):
frame `0`, the last five frames (`range(max(0, last-4), last+1)`), and the
completion zone `range(completion_zone_start, last_frame_idx - 4)` — as a
duplicate-free list (a Python set is characterized by its membership;
`dedup` realizes the union).  Natural-number truncated subtraction
coincides with Python's `max(0, ...)` / empty-`range` behaviour for these
bounds. -/
def seedList (n : ℕ) : List ℕ :=
  (0 :: (pyRange (n - 5) n ++ pyRange (czStart n) (n - 5))).dedup

/-- Lines 112-125: the boosted score list, in ascending index order —
`(i, score*2)` for `i ≥ int(n*0.9)`, `(i, score*1.5)` for
`i ≥ int(n*0.7)`, `(i, score)` otherwise.  Scores are modelled as exact
rationals. -/
def boostedScores (cs : List ℚ) : List (ℕ × ℚ) :=
  let n := cs.length
  (List.range n).map fun i =>
    let s := cs.getD i 0
    (i, if l10Start n ≤ i then s * 2 else if czStart n ≤ i then s * (3 / 2) else s)

/-- Line 128: `boosted_scores.sort(key=lambda x: x[1], reverse=True)` —
a stable sort, descending on the score.  `List.insertionSort` with relation
"left score is at least right score" is stable in exactly the same sense. -/
def sortedBoosted (cs : List ℚ) : List (ℕ × ℚ) :=
  (boostedScores cs).insertionSort (fun a b => b.2 ≤ a.2)

/-- The processing order a Python stable descending sort guarantees:
earlier entries have strictly larger boosted scores, or equal scores and
strictly smaller original indices (ties broken by ascending original
index). -/
def tieOrder (a b : ℕ × ℚ) : Prop := b.2 < a.2 ∨ (a.2 = b.2 ∧ a.1 < b.1)

/-- One step of the first (distribution) pass, lines 137-148.  The state is
the selected index set together with the per-segment admission counts.  The
`break` on a full budget is modelled by returning the state unchanged: the
cardinality never decreases, so all later iterations are no-ops exactly
when the loop would have been left. -/
def pass1Step (n maxEmbed segmentSize numSegments framesPerSegment : ℕ)
    (st : List ℕ × List ℕ) (p : ℕ × ℚ) : List ℕ × List ℕ :=
  if maxEmbed ≤ st.1.length then st
  else
    let idx := p.1
    let seg := min (idx / segmentSize) (numSegments - 1)
    if st.2.getD seg 0 < framesPerSegment ∨ idx = 0 ∨ n - 3 ≤ idx ∨ l10Start n ≤ idx then
      (setAdd idx st.1, st.2.set seg (st.2.getD seg 0 + 1))
    else st

/-- One step of the second (fill) pass, lines 151-155. -/
def pass2Step (maxEmbed : ℕ) (st : List ℕ) (p : ℕ × ℚ) : List ℕ :=
  if maxEmbed ≤ st.length then st
  else if p.1 ∈ st then st else setAdd p.1 st

/-- The seeded two-pass selection (`frame_selector.py` lines 96-158) for
given segment parameters: seed the selected set, run the distribution pass
and the fill pass over the stably sorted boosted scores, return the
selection sorted ascending (`sorted(selected_indices)`). -/
def selectCore (cs : List ℚ) (maxEmbed numSegments segmentSize framesPerSegment : ℕ) :
    List ℕ :=
  let n := cs.length
  let sorted := sortedBoosted cs
  let pass1 := sorted.foldl
    (pass1Step n maxEmbed segmentSize numSegments framesPerSegment)
    (seedList n, List.replicate numSegments 0)
  let pass2 := sorted.foldl (pass2Step maxEmbed) pass1.1
  pass2.insertionSort (· ≤ ·)

/-- `select_key_frames` (`frame_selector.py` lines 11-158), as a function of
the per-frame combined scores and the budget.  Returns the selected indices
in ascending order; index `i` stands for `frame_paths[i]`.  Returns `none`
when Python raises — the `ZeroDivisionError` in
`segment_size = len(frame_paths) // num_segments` when
`num_segments = min(5, max_embed // 3)` is `0`, or in
`idx // segment_size` when `segment_size` is `0` (the latter is proved
unreachable below). -/
def select_key_frames (cs : List ℚ) (maxEmbed : ℕ) : Option (List ℕ) :=
  let n := cs.length
  if n ≤ maxEmbed then some (List.range n)
  else
    let numSegments := min 5 (maxEmbed / 3)
    if numSegments = 0 then none
    else
      let segmentSize := n / numSegments
      if segmentSize = 0 then none
      else some (selectCore cs maxEmbed numSegments segmentSize (maxEmbed / numSegments))

example : czStart 10 = 7 := by decide
example : czStart 5 = 3 := by decide
example : l10Start 10 = 9 := by decide

/-! ## PII detection (`pii_detector.py`)

The regular-expression engine is embedded for the two patterns the claims
exercise, following Python `re` semantics: scan for the leftmost matching
start position, optional pieces are greedy with backtracking, `\b` tests a
word/non-word boundary, and `findall` on a pattern with exactly one
capturing group returns the group captures (the empty string when the
optional group did not participate). -/

/-- Python `\s` (ASCII range, all inputs in scope are ASCII). -/
def isSpaceRe (c : Char) : Bool :=
  c = ' ' || c = '\t' || c = '\n' || c = '\r' || c = '\x0b' || c = '\x0c'

/-- The character class `[-\s]` of the credit-card pattern. -/
def isSepCC (c : Char) : Bool := c = '-' || isSpaceRe c

/-- The character class `[-.\s]` of the phone pattern. -/
def isSepPhone (c : Char) : Bool := c = '-' || c = '.' || isSpaceRe c

/-- Python `\w` (ASCII range). -/
def isWordChar (c : Char) : Bool := c.isAlpha || c.isDigit || c = '_'

/-- Consume `\d{4}`. -/
def take4 : List Char → Option (List Char × List Char)
  | a :: b :: c :: d :: rest =>
    if a.isDigit && b.isDigit && c.isDigit && d.isDigit then some ([a, b, c, d], rest)
    else none
  | _ => none

/-- `\b` at the end of a match: the next character, if any, is not a word
character (the last matched character is a digit, hence a word character). -/
def boundaryAfter : List Char → Bool
  | [] => true
  | c :: _ => !isWordChar c

/-- Matcher for the tail of `(?:\d{4}[-\s]?){3}\d{4}\b` with `k` repetitions
of `\d{4}[-\s]?` remaining before the final `\d{4}\b`.  The separator is
optional and greedy; `Option.orElse` realizes the backtracking preference
order of the regex engine. -/
def ccTail : ℕ → List Char → Option (List Char × List Char)
  | 0, cs =>
    (take4 cs).bind fun q => if boundaryAfter q.2 then some q else none
  | k + 1, cs =>
    (take4 cs).bind fun q =>
      (match q.2 with
        | c :: rest' =>
          if isSepCC c then (ccTail k rest').map fun r => (q.1 ++ c :: r.1, r.2)
          else none
        | [] => none)
      <|> (ccTail k q.2).map fun r => (q.1 ++ r.1, r.2)

/-- Leftmost match of `\b(?:\d{4}[-\s]?){3}\d{4}\b`: try every start
position from the left; `\b` before the match requires the previous
character (if any) not to be a word character (the first matched character
is a digit). -/
def ccScan (prev : Option Char) : List Char → Option (List Char)
  | [] => none
  | c :: rest =>
    if (match prev with | none => true | some p => !isWordChar p) then
      match ccTail 3 (c :: rest) with
      | some m => some m.1
      | none => ccScan (some c) rest
    else ccScan (some c) rest

/-- `re.findall(PII_PATTERNS['credit_card'], text)`, first element: the
pattern has no capturing group, so `findall` returns full matches. -/
def ccFindFirst (text : String) : Option String :=
  (ccScan none text.data).map fun m => String.mk m

/-- `luhn_check` (`pii_detector.py` lines 39-57): checksum accumulation
over `enumerate(reversed(digits))`, doubling at odd positions and
subtracting 9 from doubled values above 9. -/
def luhnSum (digitsRev : List ℕ) : ℕ :=
  (digitsRev.enum.map fun p =>
    if p.1 % 2 = 1 then (if p.2 * 2 > 9 then p.2 * 2 - 9 else p.2 * 2) else p.2).sum

/-- `luhn_check(card_number)`: strip non-digits, require 13-19 digits,
accept iff the weighted checksum is divisible by 10. -/
def luhn_check (card_number : String) : Bool :=
  let digits := (card_number.data.filter Char.isDigit).map fun c => c.toNat - 48
  if digits.length < 13 || 19 < digits.length then false
  else luhnSum digits.reverse % 10 == 0

/-- The credit-card branch of `detect_pii` (`pii_detector.py` lines
82-100): `found[0]` of the pattern is the matched substring (no capturing
group); the candidate is recorded as a match iff `luhn_check` accepts its
digit string (lines 89-93), with `matched_text` the matched substring. -/
def detectCreditCard (text : String) : Option String :=
  match ccFindFirst text with
  | none => none
  | some m =>
    let cardDigits := String.mk (m.data.filter Char.isDigit)
    if luhn_check cardDigits then some m else none

/-- Greedy optional single-character item: consume it when present, with
the rest of the pattern as continuation; on failure backtrack to the
non-consuming alternative. -/
def optChar {β : Type} (p : Char → Bool) (cs : List Char)
    (k : List Char → List Char → Option β) : Option β :=
  match cs with
  | c :: rest => if p c then k [c] rest <|> k [] cs else k [] cs
  | [] => k [] cs

/-- Required single character. -/
def reqChar {β : Type} (p : Char → Bool) (cs : List Char)
    (k : List Char → List Char → Option β) : Option β :=
  match cs with
  | c :: rest => if p c then k [c] rest else none
  | [] => none

/-- Required `\d{m}`. -/
def reqDigits {β : Type} : ℕ → List Char → (List Char → List Char → Option β) → Option β
  | 0, cs, k => k [] cs
  | m + 1, cs, k =>
    match cs with
    | c :: rest =>
      if c.isDigit then reqDigits m rest fun ds cs' => k (c :: ds) cs' else none
    | [] => none

/-- The part of the phone pattern after the optional capturing group:
`\(?\d{3}\)?[-.\s]?\d{3}[-.\s]?\d{4}`.  Returns (consumed, rest). -/
def phoneRest (cs : List Char) : Option (List Char × List Char) :=
  optChar (· = '(') cs fun op cs1 =>
  reqDigits 3 cs1 fun d1 cs2 =>
  optChar (· = ')') cs2 fun cl cs3 =>
  optChar isSepPhone cs3 fun s1 cs4 =>
  reqDigits 3 cs4 fun d2 cs5 =>
  optChar isSepPhone cs5 fun s2 cs6 =>
  reqDigits 4 cs6 fun d3 cs7 =>
  some (op ++ d1 ++ cl ++ s1 ++ d2 ++ s2 ++ d3, cs7)

/-- Match of `(\+?1[-.\s]?)?\(?\d{3}\)?[-.\s]?\d{3}[-.\s]?\d{4}` at the
current position.  Returns (full match, capture of group 1 when the group
participated).  The group alternative is tried first (greedy), with full
backtracking into the groupless alternative. -/
def phoneMatchAt (cs : List Char) : Option (List Char × Option (List Char)) :=
  (optChar (· = '+') cs fun plus cs1 =>
    reqChar (· = '1') cs1 fun one cs2 =>
    optChar isSepPhone cs2 fun sep cs3 =>
    (phoneRest cs3).map fun r =>
      let cap := plus ++ one ++ sep
      (cap ++ r.1, some cap))
  <|> (phoneRest cs).map fun r => (r.1, (none : Option (List Char)))

/-- Leftmost phone match (the pattern has no `\b`, so every start position
is tried). -/
def phoneScan : List Char → Option (List Char × Option (List Char))
  | [] => none
  | c :: rest => phoneMatchAt (c :: rest) <|> phoneScan rest

/-- The first matched substring of the phone pattern in `text` — what the
spec says `matched_text` should record. -/
def phoneFullMatch (text : String) : Option String :=
  (phoneScan text.data).map fun r => String.mk r.1

/-- What `detect_pii` actually records for a phone match: the pattern has
exactly one capturing group, so `re.findall` returns the group captures;
`found[0]` is a string and becomes `matched_text` (line 86) — the capture
of the optional prefix group, the empty string when it did not
participate. -/
def phoneMatchedText (text : String) : Option String :=
  (phoneScan text.data).map fun r => (r.2.map String.mk).getD ""

/-! ## Redaction rendering (`redactor.py`, `black` mode)

An image is a pixel map `ℕ → ℕ → ℕ` (pixel value at column `x`, row `y`)
together with its `width`/`height`; a bounding box is the 4-tuple of `int`
coordinates carried by the owning text region.  PIL's
`ImageDraw.rectangle([x1, y1, x2, y2], fill)` paints every pixel of the
closed rectangle, both corners included, clipped to the image. -/

/-- A bounding box `(x1, y1, x2, y2)` in source-image pixel coordinates. -/
structure BBox where
  x1 : ℤ
  y1 : ℤ
  x2 : ℤ
  y2 : ℤ
  deriving DecidableEq

/-- Lines 40-44 of `redactor.py`: pad each side by `5`, clamp the low edges
at `0` and the high edges at the image width/height. -/
def padClamp (width height : ℕ) (b : BBox) : BBox :=
  ⟨max 0 (b.x1 - 5), max 0 (b.y1 - 5), min (width : ℤ) (b.x2 + 5), min (height : ℤ) (b.y2 + 5)⟩

/-- The black fill value (`fill='black'`). -/
def blackPixel : ℕ := 0

/-- `draw.rectangle([x1, y1, x2, y2], fill='black')` (line 55): every pixel
inside the closed box becomes the fill value, every other pixel keeps its
value. -/
def fillRect (px : ℕ → ℕ → ℕ) (b : BBox) : ℕ → ℕ → ℕ := fun x y =>
  if b.x1 ≤ (x : ℤ) ∧ (x : ℤ) ≤ b.x2 ∧ b.y1 ≤ (y : ℤ) ∧ (y : ℤ) ≤ b.y2 then blackPixel
  else px x y

/-- `apply_redactions` in `black` mode (`redactor.py` lines 32-63): the
loop over `pii_matches` draws one padded-and-clamped rectangle per match,
sequentially, on the working image. -/
def apply_redactions_black (width height : ℕ) (px : ℕ → ℕ → ℕ) (boxes : List BBox) :
    ℕ → ℕ → ℕ :=
  boxes.foldl (fun p b => fillRect p (padClamp width height b)) px

/-- A pixel strictly outside the closed box. -/
def strictlyOutside (b : BBox) (x y : ℕ) : Prop :=
  (x : ℤ) < b.x1 ∨ b.x2 < (x : ℤ) ∨ (y : ℤ) < b.y1 ∨ b.y2 < (y : ℤ)

/-- A pixel strictly inside the box. -/
def strictlyInside (b : BBox) (x y : ℕ) : Prop :=
  b.x1 < (x : ℤ) ∧ (x : ℤ) < b.x2 ∧ b.y1 < (y : ℤ) ∧ (y : ℤ) < b.y2

instance (b : BBox) (x y : ℕ) : Decidable (strictlyOutside b x y) := by
  unfold strictlyOutside; infer_instance

instance (b : BBox) (x y : ℕ) : Decidable (strictlyInside b x y) := by
  unfold strictlyInside; infer_instance

/-! ## Decision resolution (`main.py`, `generate_final_pdf`, lines 344-366)

A stored decision entry is a dict `{index, redact}`; `dec.get("redact",
True)` defaults a missing `redact` key to `True`, and `dec["index"]` is a
Python `int`, so it is modelled as `ℤ` and list subscription follows
Python semantics: non-negative indices below the length select directly,
indices in `[-len, -1]` select from the end, anything else raises
`IndexError` (modelled as `Except.error`). -/

/-- One stored decision entry. -/
structure Decision where
  index : ℤ
  redact : Option Bool
  deriving DecidableEq

/-- Python list subscription `l[i]`. -/
def pyIndex {α : Type} (l : List α) (i : ℤ) : Except Unit α :=
  let j : ℤ := if i < 0 then (l.length : ℤ) + i else i
  if 0 ≤ j then
    match l.get? j.toNat with
    | some a => .ok a
    | none => .error ()
  else .error ()

/-- Lines 359-363: the comprehension
`[frame_pii[dec["index"]] for dec in decisions
  if dec.get("redact", True) and dec["index"] < len(frame_pii)]`,
left to right; an `IndexError` inside aborts the whole resolution (it
propagates to the handler at line 402). -/
def resolveDecisions {α : Type} (decisions : List Decision) (pii : List α) :
    Except Unit (List α) :=
  match decisions with
  | [] => .ok []
  | d :: rest =>
    if d.redact.getD true = true ∧ d.index < (pii.length : ℤ) then
      match pyIndex pii d.index with
      | .error e => .error e
      | .ok a => (resolveDecisions rest pii).map (a :: ·)
    else resolveDecisions rest pii

/-- Lines 356-366: matches to redact for one frame — the stored decision
list when the frame id has one, otherwise every detected match. -/
def resolveFrame {α : Type} (stored : Option (List Decision)) (pii : List α) :
    Except Unit (List α) :=
  match stored with
  | some decs => resolveDecisions decs pii
  | none => .ok pii

/-- What the claim predicts: the in-range matches whose decision is
`redact=true`, in decision order (out-of-range entries ignored). -/
def claimResolved {α : Type} (decisions : List Decision) (pii : List α) : List α :=
  match decisions with
  | [] => []
  | d :: rest =>
    if d.redact.getD true = true ∧ 0 ≤ d.index ∧ d.index < (pii.length : ℤ) then
      (pii.get? d.index.toNat).toList ++ claimResolved rest pii
    else claimResolved rest pii

/-! ## Frame differencing (`frame_selector.py` lines 40-50)

`img_array` and `prev_img` are `uint8` arrays (320x180 grayscale), flattened
here to pixel-value lists (each value below 256).  `img_array - prev_img`
subtracts `uint8`s, wrapping modulo 256; `np.abs` is the identity on
`uint8`; `np.mean` divides the exact sum by the pixel count. -/

/-- The difference score the code computes for a frame against its
predecessor: `np.mean(np.abs(cur - prev))` on `uint8` data. -/
def codeFrameDiff (cur prev : List ℕ) : ℚ :=
  let s : ℕ := ((cur.zip prev).map fun p => (p.1 + 256 - p.2 % 256) % 256).sum
  (s : ℚ) / ((cur.zip prev).length : ℚ)

/-- The difference score the spec describes: the mean of the exact integer
absolute per-pixel differences. -/
def specFrameDiff (cur prev : List ℕ) : ℚ :=
  let s : ℕ := ((cur.zip prev).map fun p => max p.1 p.2 - min p.1 p.2).sum
  (s : ℚ) / ((cur.zip prev).length : ℚ)

/-! ## The redaction batch loop (`main.py` lines 351-405)

`apply_redactions` (`redactor.py` line 68) logs and re-raises on a failed
image; the loop over `key_frame_data` in `generate_final_pdf` has no
per-frame handler, so the exception propagates to the `except` at line 402,
which marks the whole job as errored.  A frame is modelled by its path, its
resolved matches, and whether its image can be processed. -/

/-- One key frame entering the redaction loop. -/
structure FrameInfo where
  path : String
  pii : List ℕ
  readable : Bool
  deriving DecidableEq

/-- `apply_redactions` on one frame: the output path on success, a raised
exception (carrying the failing path) otherwise. -/
def applyRedactionsExc (f : FrameInfo) : Except String String :=
  if f.readable then .ok (f.path ++ "_redacted") else .error f.path

/-- The loop of lines 351-380 building `redacted_frames`
(`{frame_number: redacted_image_path}`): a raised exception anywhere
aborts the whole batch. -/
def redactBatch : ℕ → List FrameInfo → Except String (List (ℕ × String))
  | _, [] => .ok []
  | i, f :: rest =>
    if f.pii.isEmpty then
      (redactBatch (i + 1) rest).map ((i + 1, f.path) :: ·)
    else
      match applyRedactionsExc f with
      | .error e => .error e
      | .ok p => (redactBatch (i + 1) rest).map ((i + 1, p) :: ·)

/-! ## Theorems -/

/-! ### Redaction in `black` mode (C2) -/

lemma foldl_fillRect_eq_of_outside (width height : ℕ) (x y : ℕ) :
    ∀ (boxes : List BBox) (px : ℕ → ℕ → ℕ),
      (∀ b ∈ boxes, strictlyOutside (padClamp width height b) x y) →
      apply_redactions_black width height px boxes x y = px x y := by
  intro boxes
  induction boxes with
  | nil => intro px _; rfl
  | cons b bs ih =>
    intro px h
    have hb := h b (List.mem_cons_self b bs)
    have hrest : ∀ b' ∈ bs, strictlyOutside (padClamp width height b') x y :=
      fun b' hb' => h b' (List.mem_cons_of_mem _ hb')
    have : fillRect px (padClamp width height b) x y = px x y := by
      unfold fillRect
      rw [if_neg]
      rcases hb with h1 | h2 | h3 | h4 <;> intro hc <;> omega
    calc apply_redactions_black width height px (b :: bs) x y
        = apply_redactions_black width height (fillRect px (padClamp width height b)) bs x y :=
          rfl
      _ = fillRect px (padClamp width height b) x y := ih _ hrest
      _ = px x y := this

lemma foldl_fillRect_eq_of_black (width height : ℕ) (x y : ℕ) :
    ∀ (boxes : List BBox) (px : ℕ → ℕ → ℕ), px x y = blackPixel →
      apply_redactions_black width height px boxes x y = blackPixel := by
  intro boxes
  induction boxes with
  | nil => intro px h; exact h
  | cons b bs ih =>
    intro px h
    refine ih _ ?_
    simp only [fillRect]
    split
    · rfl
    · exact h

/-- C2: in `black` mode, every pixel strictly outside every
padded-and-clamped bounding box keeps its source value, and every pixel
strictly inside some padded box is set to the black fill value. -/
theorem c2_black_redaction (width height : ℕ) (px : ℕ → ℕ → ℕ) (boxes : List BBox)
    (x y : ℕ) :
    ((∀ b ∈ boxes, strictlyOutside (padClamp width height b) x y) →
      apply_redactions_black width height px boxes x y = px x y) ∧
    ((∃ b ∈ boxes, strictlyInside (padClamp width height b) x y) →
      apply_redactions_black width height px boxes x y = blackPixel) := by
  constructor
  · exact foldl_fillRect_eq_of_outside width height x y boxes px
  · intro ⟨b, hmem, hin⟩
    obtain ⟨l1, l2, rfl⟩ := List.append_of_mem hmem
    have step : ∀ (p : ℕ → ℕ → ℕ),
        apply_redactions_black width height p (l1 ++ b :: l2) x y =
        apply_redactions_black width height
          (fillRect (apply_redactions_black width height p l1) (padClamp width height b))
          l2 x y := by
      intro p
      unfold apply_redactions_black
      rw [List.foldl_append, List.foldl_cons]
    rw [step]
    refine foldl_fillRect_eq_of_black width height x y l2 _ ?_
    unfold fillRect
    rw [if_pos]
    obtain ⟨h1, h2, h3, h4⟩ := hin
    exact ⟨le_of_lt h1, le_of_lt h2, le_of_lt h3, le_of_lt h4⟩

/-- Witness for C2 at a concrete image and box: the box `(10,10,20,20)`
pads and clamps to `(5,5,25,25)` inside a 100x50 image; pixel `(40,40)` is
strictly outside it and keeps value `7`, pixel `(15,15)` is strictly
inside and turns black. -/
theorem c2_black_redaction_witness :
    apply_redactions_black 100 50 (fun _ _ => 7) [⟨10, 10, 20, 20⟩] 40 40 = 7 ∧
    apply_redactions_black 100 50 (fun _ _ => 7) [⟨10, 10, 20, 20⟩] 15 15 = blackPixel :=
  ⟨(c2_black_redaction 100 50 (fun _ _ => 7) [⟨10, 10, 20, 20⟩] 40 40).1
      (by intro b hb; simp at hb; subst hb; decide),
    (c2_black_redaction 100 50 (fun _ _ => 7) [⟨10, 10, 20, 20⟩] 15 15).2
      ⟨⟨10, 10, 20, 20⟩, by simp, by decide⟩⟩

/-! ### Decision resolution (C3, C4) -/

lemma pyIndex_ok {α : Type} (l : List α) (i : ℤ) (h0 : 0 ≤ i) (hl : i < l.length) :
    ∃ a, pyIndex l i = .ok a ∧ l.get? i.toNat = some a := by
  have hlt : i.toNat < l.length := by omega
  refine ⟨l.get ⟨i.toNat, hlt⟩, ?_, List.get?_eq_get hlt⟩
  unfold pyIndex
  have : ¬ i < 0 := by omega
  simp only [this, if_false, h0, if_pos, List.get?_eq_get hlt]

/-- C3 (amended): when every stored index is non-negative, entries whose
index is at or beyond the match-list length are ignored without raising,
they do not change which valid-index decisions are resolved, and the
resolved list is exactly the in-range matches whose decision is
`redact=true`. -/
theorem c3_amended_resolution {α : Type} (decs : List Decision) (pii : List α)
    (h : ∀ d ∈ decs, 0 ≤ d.index) :
    resolveDecisions decs pii = .ok (claimResolved decs pii) ∧
    resolveDecisions decs pii =
      resolveDecisions (decs.filter fun d => decide (d.index < (pii.length : ℤ))) pii := by
  induction decs with
  | nil => exact ⟨rfl, rfl⟩
  | cons d rest ih =>
    have hd : 0 ≤ d.index := h d (List.mem_cons_self d rest)
    obtain ⟨ih1, ih2⟩ := ih fun d' hd' => h d' (List.mem_cons_of_mem _ hd')
    by_cases hlt : d.index < (pii.length : ℤ)
    · by_cases hr : d.redact.getD true = true
      · obtain ⟨a, ha, hga⟩ := pyIndex_ok pii d.index hd hlt
        constructor
        · simp only [resolveDecisions, claimResolved, if_pos (And.intro hr hlt),
            if_pos (And.intro hr (And.intro hd hlt)), ha, ih1, Except.map, hga]
          rfl
        · simp only [resolveDecisions, List.filter_cons, decide_eq_true hlt, ha,
            if_pos (And.intro hr hlt), ih2]
      · constructor
        · simp only [resolveDecisions, claimResolved, ih1]
          rw [if_neg (fun hc => hr hc.1), if_neg (fun hc => hr hc.1)]
        · simp only [resolveDecisions, List.filter_cons, decide_eq_true hlt]
          rw [if_neg (fun hc => hr hc.1)]
          rw [if_neg (fun hc => hr hc.1)]
          exact ih2
    · constructor
      · simp only [resolveDecisions, claimResolved]
        rw [if_neg (fun hc => hlt hc.2), if_neg (fun hc => hlt hc.2.2)]
        exact ih1
      · simp only [resolveDecisions, List.filter_cons]
        rw [if_neg (fun hc => hlt hc.2)]
        have : (decide (d.index < (pii.length : ℤ))) = false := by
          simp [hlt]
        rw [this]
        simp only [Bool.false_eq_true, if_false]
        exact ih2

/-- Witness for C3 (amended): decisions `(5, redact)`, `(0, redact)`,
`(1, keep)` against three matches resolve to exactly the first match; the
out-of-range index `5` is ignored. -/
theorem c3_amended_resolution_witness :
    resolveDecisions [⟨5, some true⟩, ⟨0, some true⟩, ⟨1, some false⟩]
        ([10, 20, 30] : List ℕ) =
      .ok (claimResolved [⟨5, some true⟩, ⟨0, some true⟩, ⟨1, some false⟩] [10, 20, 30]) ∧
    resolveDecisions [⟨5, some true⟩, ⟨0, some true⟩, ⟨1, some false⟩]
        ([10, 20, 30] : List ℕ) =
      resolveDecisions
        (([⟨5, some true⟩, ⟨0, some true⟩, ⟨1, some false⟩] : List Decision).filter
          fun d => decide (d.index < ((3 : ℕ) : ℤ)))
        [10, 20, 30] :=
  c3_amended_resolution [⟨5, some true⟩, ⟨0, some true⟩, ⟨1, some false⟩] [10, 20, 30]
    (by intro d hd; fin_cases hd <;> decide)

/-- C3 (counterexample): a stored decision with the out-of-range index `-4`
against a three-element match list is not ignored — resolution raises
(`frame_pii[-4]` is an `IndexError`, aborting `generate_final_pdf`) —
whereas the claim predicts it is skipped and nothing is resolved. -/
theorem c3_counterexample :
    resolveFrame (some [⟨-4, some true⟩]) ([10, 20, 30] : List ℕ) = .error () ∧
    claimResolved [⟨-4, some true⟩] ([10, 20, 30] : List ℕ) = [] := by
  constructor <;> rfl

/-- C4: a frame with no stored decision record resolves to every detected
match being redacted. -/
theorem c4_default_redact_all {α : Type} (pii : List α) :
    resolveFrame none pii = .ok pii := rfl

/-- Witness for C4: three detected matches and no stored decision resolve
to all three being redacted. -/
theorem c4_default_redact_all_witness :
    resolveFrame none ([10, 20, 30] : List ℕ) = .ok [10, 20, 30] :=
  c4_default_redact_all [10, 20, 30]

/-! ### Credit-card validation (C5) -/

lemma luhn_check_eq_true_iff (card : String) :
    luhn_check card = true ↔
      (13 ≤ (card.data.filter Char.isDigit).length ∧
        (card.data.filter Char.isDigit).length ≤ 19 ∧
        luhnSum (((card.data.filter Char.isDigit).map fun c => c.toNat - 48).reverse) % 10
          = 0) := by
  unfold luhn_check
  dsimp only
  simp only [List.length_map]
  set L := card.data.filter Char.isDigit with hL
  by_cases h13 : 13 ≤ L.length ∧ L.length ≤ 19
  · rw [if_neg (by simp only [Bool.or_eq_true, decide_eq_true_eq]; omega)]
    simp only [beq_iff_eq]
    exact ⟨fun hm => ⟨h13.1, h13.2, hm⟩, fun hc => hc.2.2⟩
  · rw [if_pos (by simp only [Bool.or_eq_true, decide_eq_true_eq]; omega)]
    exact iff_of_false (by simp) fun hc => h13 ⟨hc.1, hc.2.1⟩

lemma isSome_ite_some {α : Type} (b : Bool) (v : α) :
    (if b = true then some v else none).isSome = true ↔ b = true := by
  cases b <;> simp

/-- C5: a credit-card-shaped candidate (a match of the credit-card
pattern) is reported iff its digit string has 13 to 19 digits and the
weighted checksum (every second digit from the right doubled, doubled
values above 9 reduced by 9, all digits summed) is divisible by 10;
`"4111 1111 1111 1111"` is accepted, `"1234 5678 9012 3456"` is
rejected. -/
theorem c5_luhn_validation :
    (∀ (text m : String), ccFindFirst text = some m →
      ((detectCreditCard text).isSome = true ↔
        (13 ≤ (m.data.filter Char.isDigit).length ∧
          (m.data.filter Char.isDigit).length ≤ 19 ∧
          luhnSum (((m.data.filter Char.isDigit).map fun c => c.toNat - 48).reverse) % 10
            = 0))) ∧
    detectCreditCard "4111 1111 1111 1111" = some "4111 1111 1111 1111" ∧
    detectCreditCard "1234 5678 9012 3456" = none := by
  refine ⟨?_, by decide, by decide⟩
  intro text m h
  unfold detectCreditCard
  rw [h]
  have hfilter : (m.data.filter Char.isDigit).filter Char.isDigit = m.data.filter Char.isDigit :=
    List.filter_eq_self.mpr fun a ha => List.of_mem_filter ha
  dsimp only
  rw [isSome_ite_some, luhn_check_eq_true_iff]
  dsimp only
  rw [hfilter]

/-- Witness for C5: the candidate `"4111 1111 1111 1111"` found by the
pattern is reported as a match. -/
theorem c5_luhn_validation_witness :
    (detectCreditCard "4111 1111 1111 1111").isSome = true :=
  (c5_luhn_validation.1 "4111 1111 1111 1111" "4111 1111 1111 1111" (by decide)).mpr
    (by decide)

/-! ### Phone `matched_text` (C6) -/

/-- C6 (code evaluation): on region text `"555-123-4567"` the phone
pattern's first matched substring is the whole string, but `detect_pii`
records the empty string as `matched_text` — `re.findall` on a pattern
with one capturing group returns group captures, and the optional prefix
group did not participate. -/
theorem c6_phone_matched_text :
    phoneFullMatch "555-123-4567" = some "555-123-4567" ∧
    phoneMatchedText "555-123-4567" = some "" ∧
    phoneMatchedText "555-123-4567" ≠ phoneFullMatch "555-123-4567" := by
  refine ⟨by decide, by decide, by decide⟩

/-! ### Redaction batch abort (C7) -/

/-- C7 (code evaluation): a two-frame batch whose first frame's image is
unreadable aborts with the re-raised exception; the second frame — which
alone would succeed — is never processed and the result map is never
built. -/
theorem c7_batch_abort :
    redactBatch 0 [⟨"frame1", [0], false⟩, ⟨"frame2", [1], true⟩] = .error "frame1" ∧
    applyRedactionsExc ⟨"frame2", [1], true⟩ = .ok "frame2_redacted" := by
  constructor <;> rfl

/-! ### Frame difference score (C8) -/

lemma zip_replicate_self (n a b : ℕ) :
    (List.replicate n a).zip (List.replicate n b) = List.replicate n (a, b) := by
  induction n with
  | zero => rfl
  | succ n ih => simp [List.replicate_succ, ih]

lemma sum_map_replicate (n : ℕ) (f : ℕ × ℕ → ℕ) (p : ℕ × ℕ) :
    ((List.replicate n p).map f).sum = n * f p := by
  induction n with
  | zero => simp
  | succ n ih =>
    simp only [List.replicate_succ, List.map_cons, List.sum_cons, ih, Nat.succ_mul]
    omega

/-- C8 (code evaluation): on a 320x180 downsampled pair where the current
frame is all 0 and the previous frame all 1, the code's `uint8`
subtraction wraps to 255 per pixel, so the computed score is 255, while
the exact mean absolute pixel difference of the claim is 1. -/
theorem c8_modular_difference :
    codeFrameDiff (List.replicate 57600 0) (List.replicate 57600 1) = 255 ∧
    specFrameDiff (List.replicate 57600 0) (List.replicate 57600 1) = 1 := by
  constructor
  · unfold codeFrameDiff
    rw [zip_replicate_self, sum_map_replicate]
    simp only [List.length_replicate]
    norm_num
  · unfold specFrameDiff
    rw [zip_replicate_self, sum_map_replicate]
    simp only [List.length_replicate]
    norm_num

/-! ### Selector totality (C10) -/

/-- C10: for more frames than budget, `select_key_frames` completes
without raising exactly when `maxEmbed ≥ 3`; for `maxEmbed < 3` the
segment count `min(5, maxEmbed // 3)` is `0` and the segment-size
division raises `ZeroDivisionError`.  Equivalently: the call fails iff
`maxEmbed < 3` and the frame list is longer than `maxEmbed`. -/
theorem c10_budget_precondition (cs : List ℚ) (K : ℕ) :
    select_key_frames cs K = none ↔ (K < 3 ∧ K < cs.length) := by
  unfold select_key_frames
  dsimp only
  by_cases hn : cs.length ≤ K
  · rw [if_pos hn]
    exact iff_of_false (by simp) fun hc => by omega
  · rw [if_neg hn]
    by_cases hns : min 5 (K / 3) = 0
    · rw [if_pos hns]
      exact iff_of_true rfl ⟨by omega, by omega⟩
    · rw [if_neg hns]
      have hsz : ¬ cs.length / min 5 (K / 3) = 0 := by
        have h1 : min 5 (K / 3) ≤ cs.length := by omega
        have h2 : 0 < min 5 (K / 3) := by omega
        have := Nat.div_pos h1 h2
        omega
      rw [if_neg hsz]
      exact iff_of_false (by simp) fun hc => by omega

/-- Witness for C10: four frames with budget 2 raise (`min(5, 2//3) = 0`). -/
theorem c10_budget_precondition_witness :
    select_key_frames (List.replicate 4 (0 : ℚ)) 2 = none :=
  (c10_budget_precondition (List.replicate 4 (0 : ℚ)) 2).mpr ⟨by omega, by simp⟩

/-! ### Selector determinism and tie-breaking (C9) -/

lemma orderedInsert_pairwise_tie (x : ℕ × ℚ) :
    ∀ (l : List (ℕ × ℚ)), l.Pairwise tieOrder →
      (∀ y ∈ l, x.2 = y.2 → x.1 < y.1) →
      (List.orderedInsert (fun a b => b.2 ≤ a.2) x l).Pairwise tieOrder
  | [], _, _ => by simp [List.orderedInsert]
  | y :: ys, hl, hx => by
    rw [List.orderedInsert]
    obtain ⟨hy_all, hys⟩ := List.pairwise_cons.mp hl
    split
    case isTrue hr =>
      refine List.Pairwise.cons ?_ hl
      intro z hz
      rcases List.mem_cons.mp hz with rfl | hzys
      · rcases lt_or_eq_of_le hr with h | h
        · exact Or.inl h
        · exact Or.inr ⟨h.symm, hx _ (List.mem_cons_self _ _) h.symm⟩
      · rcases hy_all z hzys with h | ⟨heq, _⟩
        · exact Or.inl (lt_of_lt_of_le h hr)
        · have hz2 : z.2 ≤ x.2 := heq ▸ hr
          rcases lt_or_eq_of_le hz2 with h' | h'
          · exact Or.inl h'
          · exact Or.inr ⟨h'.symm, hx z (List.mem_cons_of_mem _ hzys) h'.symm⟩
    case isFalse hr =>
      have hxy : x.2 < y.2 := not_le.mp hr
      refine List.Pairwise.cons ?_
        (orderedInsert_pairwise_tie x ys hys fun y' hy' => hx y' (List.mem_cons_of_mem _ hy'))
      intro z hz
      rcases (List.mem_orderedInsert _).mp hz with rfl | hzys
      · exact Or.inl hxy
      · exact hy_all z hzys

lemma insertionSort_pairwise_tie :
    ∀ (l : List (ℕ × ℚ)), (l.Pairwise fun a b => a.1 < b.1) →
      (l.insertionSort (fun a b => b.2 ≤ a.2)).Pairwise tieOrder
  | [], _ => by simp
  | x :: xs, h => by
    rw [List.insertionSort]
    obtain ⟨hx, hxs⟩ := List.pairwise_cons.mp h
    refine orderedInsert_pairwise_tie x _ (insertionSort_pairwise_tie xs hxs) ?_
    intro y hy _
    exact hx y ((List.mem_insertionSort _).mp hy)

lemma boostedScores_pairwise_fst (cs : List ℚ) :
    (boostedScores cs).Pairwise fun a b => a.1 < b.1 := by
  unfold boostedScores
  dsimp only
  rw [List.pairwise_map]
  exact List.pairwise_lt_range _

lemma sortedBoosted_pairwise (cs : List ℚ) : (sortedBoosted cs).Pairwise tieOrder :=
  insertionSort_pairwise_tie _ (boostedScores_pairwise_fst cs)

/-- C9: the selector is a pure function of the scores and the budget —
identical inputs give the identical output — and the stable descending
sort processes frames in an order where score ties are broken by ascending
original frame index, so no other nondeterminism can enter the selection. -/
theorem c9_determinism :
    (∀ (cs₁ cs₂ : List ℚ) (k₁ k₂ : ℕ), cs₁ = cs₂ → k₁ = k₂ →
      select_key_frames cs₁ k₁ = select_key_frames cs₂ k₂) ∧
    ∀ cs : List ℚ, (sortedBoosted cs).Pairwise tieOrder :=
  ⟨fun _ _ _ _ h1 h2 => by rw [h1, h2], sortedBoosted_pairwise⟩

/-- Witness for C9 at concrete inputs. -/
theorem c9_determinism_witness :
    select_key_frames (List.replicate 4 (0 : ℚ)) 3 =
      select_key_frames (List.replicate 4 (0 : ℚ)) 3 ∧
    (sortedBoosted [(1 : ℚ), 2]).Pairwise tieOrder :=
  ⟨c9_determinism.1 _ _ 3 3 rfl rfl, c9_determinism.2 [1, 2]⟩

/-! ### Selection size, anchors and ordering (C1) -/

lemma subset_setAdd (x : ℕ) (l : List ℕ) : l ⊆ setAdd x l := by
  unfold setAdd
  split
  · exact List.Subset.refl _
  · exact fun a ha => List.mem_cons_of_mem _ ha

lemma mem_setAdd_self (x : ℕ) (l : List ℕ) : x ∈ setAdd x l := by
  unfold setAdd
  split
  · assumption
  · exact List.mem_cons_self _ _

lemma length_setAdd_le (x : ℕ) (l : List ℕ) : (setAdd x l).length ≤ l.length + 1 := by
  unfold setAdd
  split
  · omega
  · simp

lemma length_le_setAdd (x : ℕ) (l : List ℕ) : l.length ≤ (setAdd x l).length := by
  unfold setAdd
  split
  · omega
  · simp

lemma nodup_setAdd (x : ℕ) (l : List ℕ) (h : l.Nodup) : (setAdd x l).Nodup := by
  unfold setAdd
  split
  · exact h
  · exact List.Nodup.cons (by assumption) h

section PassLemmas

variable (n K ss ns fps : ℕ)

lemma pass1Step_fst_subset (st : List ℕ × List ℕ) (p : ℕ × ℚ) :
    st.1 ⊆ (pass1Step n K ss ns fps st p).1 := by
  unfold pass1Step
  split
  · exact List.Subset.refl _
  · dsimp only
    split
    · exact subset_setAdd _ _
    · exact List.Subset.refl _

lemma pass1Step_length_le (st : List ℕ × List ℕ) (p : ℕ × ℚ) :
    (pass1Step n K ss ns fps st p).1.length ≤ max st.1.length K := by
  unfold pass1Step
  split
  · exact le_max_left _ _
  · dsimp only
    split
    · have h1 := length_setAdd_le p.1 st.1
      have h2 : ¬ K ≤ st.1.length := by assumption
      simp only
      omega
    · exact le_max_left _ _

lemma pass1Step_full (st : List ℕ × List ℕ) (p : ℕ × ℚ) (h : K ≤ st.1.length) :
    pass1Step n K ss ns fps st p = st := by
  unfold pass1Step
  rw [if_pos h]

lemma pass1Step_nodup (st : List ℕ × List ℕ) (p : ℕ × ℚ) (h : st.1.Nodup) :
    (pass1Step n K ss ns fps st p).1.Nodup := by
  unfold pass1Step
  split
  · exact h
  · dsimp only
    split
    · exact nodup_setAdd _ _ h
    · exact h

lemma foldl_pass1_subset :
    ∀ (L : List (ℕ × ℚ)) (st : List ℕ × List ℕ),
      st.1 ⊆ (L.foldl (pass1Step n K ss ns fps) st).1
  | [], _ => List.Subset.refl _
  | p :: L, st =>
    List.Subset.trans (pass1Step_fst_subset n K ss ns fps st p)
      (foldl_pass1_subset L (pass1Step n K ss ns fps st p))

lemma foldl_pass1_length_le :
    ∀ (L : List (ℕ × ℚ)) (st : List ℕ × List ℕ),
      (L.foldl (pass1Step n K ss ns fps) st).1.length ≤ max st.1.length K
  | [], _ => le_max_left _ _
  | p :: L, st => by
    have h1 := foldl_pass1_length_le L (pass1Step n K ss ns fps st p)
    have h2 := pass1Step_length_le n K ss ns fps st p
    rw [List.foldl_cons]
    omega

lemma foldl_pass1_full :
    ∀ (L : List (ℕ × ℚ)) (st : List ℕ × List ℕ), K ≤ st.1.length →
      L.foldl (pass1Step n K ss ns fps) st = st
  | [], _, _ => rfl
  | p :: L, st, h => by
    rw [List.foldl_cons, pass1Step_full n K ss ns fps st p h]
    exact foldl_pass1_full L st h

lemma foldl_pass1_nodup :
    ∀ (L : List (ℕ × ℚ)) (st : List ℕ × List ℕ), st.1.Nodup →
      (L.foldl (pass1Step n K ss ns fps) st).1.Nodup
  | [], _, h => h
  | p :: L, st, h =>
    foldl_pass1_nodup L (pass1Step n K ss ns fps st p) (pass1Step_nodup n K ss ns fps st p h)

lemma pass2Step_subset (st : List ℕ) (p : ℕ × ℚ) : st ⊆ pass2Step K st p := by
  unfold pass2Step
  split
  · exact List.Subset.refl _
  · split
    · exact List.Subset.refl _
    · exact subset_setAdd _ _

lemma pass2Step_length_le (st : List ℕ) (p : ℕ × ℚ) :
    (pass2Step K st p).length ≤ max st.length K := by
  unfold pass2Step
  split
  · exact le_max_left _ _
  · split
    · exact le_max_left _ _
    · have h1 := length_setAdd_le p.1 st
      have h2 : ¬ K ≤ st.length := by assumption
      omega

lemma pass2Step_length_mono (st : List ℕ) (p : ℕ × ℚ) :
    st.length ≤ (pass2Step K st p).length := by
  unfold pass2Step
  split
  · exact le_refl _
  · split
    · exact le_refl _
    · exact length_le_setAdd _ _

lemma pass2Step_full (st : List ℕ) (p : ℕ × ℚ) (h : K ≤ st.length) :
    pass2Step K st p = st := by
  unfold pass2Step
  rw [if_pos h]

lemma pass2Step_nodup (st : List ℕ) (p : ℕ × ℚ) (h : st.Nodup) :
    (pass2Step K st p).Nodup := by
  unfold pass2Step
  split
  · exact h
  · split
    · exact h
    · exact nodup_setAdd _ _ h

lemma foldl_pass2_subset :
    ∀ (L : List (ℕ × ℚ)) (st : List ℕ), st ⊆ L.foldl (pass2Step K) st
  | [], _ => List.Subset.refl _
  | p :: L, st =>
    List.Subset.trans (pass2Step_subset K st p) (foldl_pass2_subset L (pass2Step K st p))

lemma foldl_pass2_length_le :
    ∀ (L : List (ℕ × ℚ)) (st : List ℕ),
      (L.foldl (pass2Step K) st).length ≤ max st.length K
  | [], _ => le_max_left _ _
  | p :: L, st => by
    have h1 := foldl_pass2_length_le L (pass2Step K st p)
    have h2 := pass2Step_length_le K st p
    rw [List.foldl_cons]
    omega

lemma foldl_pass2_length_mono :
    ∀ (L : List (ℕ × ℚ)) (st : List ℕ), st.length ≤ (L.foldl (pass2Step K) st).length
  | [], _ => le_refl _
  | p :: L, st =>
    le_trans (pass2Step_length_mono K st p) (foldl_pass2_length_mono L (pass2Step K st p))

lemma foldl_pass2_full :
    ∀ (L : List (ℕ × ℚ)) (st : List ℕ), K ≤ st.length → L.foldl (pass2Step K) st = st
  | [], _, _ => rfl
  | p :: L, st, h => by
    rw [List.foldl_cons, pass2Step_full K st p h]
    exact foldl_pass2_full L st h

lemma foldl_pass2_nodup :
    ∀ (L : List (ℕ × ℚ)) (st : List ℕ), st.Nodup → (L.foldl (pass2Step K) st).Nodup
  | [], _, h => h
  | p :: L, st, h =>
    foldl_pass2_nodup L (pass2Step K st p) (pass2Step_nodup K st p h)

lemma foldl_pass2_reach :
    ∀ (L : List (ℕ × ℚ)) (st : List ℕ),
      K ≤ (L.foldl (pass2Step K) st).length ∨ ∀ p ∈ L, p.1 ∈ L.foldl (pass2Step K) st
  | [], _ => Or.inr (by simp)
  | p :: L, st => by
    rw [List.foldl_cons]
    by_cases h : K ≤ st.length
    · left
      have h1 := foldl_pass2_length_mono K L (pass2Step K st p)
      have h2 := pass2Step_length_mono K st p
      omega
    · have hmem : p.1 ∈ pass2Step K st p := by
        unfold pass2Step
        rw [if_neg h]
        split
        · assumption
        · exact mem_setAdd_self _ _
      rcases foldl_pass2_reach L (pass2Step K st p) with hK | hall
      · exact Or.inl hK
      · right
        intro q hq
        rcases List.mem_cons.mp hq with rfl | hqL
        · exact foldl_pass2_subset K L _ hmem
        · exact hall q hqL

end PassLemmas

lemma seedList_nodup (n : ℕ) : (seedList n).Nodup := List.nodup_dedup _

lemma zero_mem_seedList (n : ℕ) : 0 ∈ seedList n := by
  unfold seedList
  rw [List.mem_dedup]
  exact List.mem_cons_self _ _

lemma last_mem_seedList (n : ℕ) (h : 1 ≤ n) : n - 1 ∈ seedList n := by
  unfold seedList pyRange
  rw [List.mem_dedup, List.mem_cons]
  right
  rw [List.mem_append]
  left
  rw [List.mem_map]
  refine ⟨n - 1 - (n - 5), List.mem_range.mpr (by omega), by omega⟩

lemma exists_mem_sortedBoosted (cs : List ℚ) (i : ℕ) (h : i < cs.length) :
    ∃ s, (i, s) ∈ sortedBoosted cs := by
  have hb : ∃ s, (i, s) ∈ boostedScores cs := by
    unfold boostedScores
    dsimp only
    exact ⟨_, List.mem_map.mpr ⟨i, List.mem_range.mpr h, rfl⟩⟩
  obtain ⟨s, hs⟩ := hb
  exact ⟨s, (List.mem_insertionSort _).mpr hs⟩

lemma mem_selectCore_of_seed (cs : List ℚ) (K ns ss fps : ℕ) (x : ℕ)
    (hx : x ∈ seedList cs.length) : x ∈ selectCore cs K ns ss fps := by
  unfold selectCore
  dsimp only
  rw [List.mem_insertionSort]
  refine foldl_pass2_subset K _ _ ?_
  exact foldl_pass1_subset cs.length K ss ns fps (sortedBoosted cs)
    (seedList cs.length, List.replicate ns 0) hx

lemma selectCore_nodup (cs : List ℚ) (K ns ss fps : ℕ) : (selectCore cs K ns ss fps).Nodup := by
  unfold selectCore
  dsimp only
  rw [(List.perm_insertionSort _ _).nodup_iff]
  exact foldl_pass2_nodup K _ _
    (foldl_pass1_nodup cs.length K ss ns fps _ _ (seedList_nodup _))

lemma selectCore_sorted (cs : List ℚ) (K ns ss fps : ℕ) :
    (selectCore cs K ns ss fps).Sorted (· < ·) := by
  have h1 : (selectCore cs K ns ss fps).Sorted (· ≤ ·) := by
    unfold selectCore
    dsimp only
    exact List.sorted_insertionSort _ _
  exact h1.lt_of_le (selectCore_nodup cs K ns ss fps)

lemma selectCore_length (cs : List ℚ) (K ns ss fps : ℕ) (hK : K < cs.length) :
    (selectCore cs K ns ss fps).length = max K (seedList cs.length).length := by
  unfold selectCore
  dsimp only
  rw [List.length_insertionSort]
  by_cases hfull : K ≤ (seedList cs.length).length
  · rw [foldl_pass1_full cs.length K ss ns fps _ _ hfull]
    rw [foldl_pass2_full K _ _ hfull]
    omega
  · have hsub1 := foldl_pass1_length_le cs.length K ss ns fps (sortedBoosted cs)
      (seedList cs.length, List.replicate ns 0)
    dsimp only at hsub1
    have hsub2 := foldl_pass2_length_le K (sortedBoosted cs)
      ((sortedBoosted cs).foldl (pass1Step cs.length K ss ns fps)
        (seedList cs.length, List.replicate ns 0)).1
    have hge : K ≤ ((sortedBoosted cs).foldl (pass2Step K)
        ((sortedBoosted cs).foldl (pass1Step cs.length K ss ns fps)
          (seedList cs.length, List.replicate ns 0)).1).length := by
      rcases foldl_pass2_reach K (sortedBoosted cs)
          ((sortedBoosted cs).foldl (pass1Step cs.length K ss ns fps)
            (seedList cs.length, List.replicate ns 0)).1 with h | hall
      · exact h
      · exfalso
        have hrange : List.range cs.length ⊆
            (sortedBoosted cs).foldl (pass2Step K)
              ((sortedBoosted cs).foldl (pass1Step cs.length K ss ns fps)
                (seedList cs.length, List.replicate ns 0)).1 := by
          intro i hi
          obtain ⟨s, hs⟩ := exists_mem_sortedBoosted cs i (List.mem_range.mp hi)
          exact hall (i, s) hs
        have hlen : cs.length ≤ ((sortedBoosted cs).foldl (pass2Step K)
            ((sortedBoosted cs).foldl (pass1Step cs.length K ss ns fps)
              (seedList cs.length, List.replicate ns 0)).1).length := by
          have := (List.nodup_range cs.length).subperm hrange
          simpa using this.length_le
        omega
    omega

/-- C1 (amended): for more frames than budget and a budget of at least 3,
the selector succeeds and returns exactly `max maxEmbed S` frames, where
`S` is the size of the mandatory seed set (frame 0, the last five frames,
and the completion zone `[int(N*0.7), N-6]`) — so exactly `maxEmbed`
frames whenever the seed set fits in the budget; the selection is strictly
increasing and contains original indices `0` and `N-1`. -/
theorem c1_amended_selection (cs : List ℚ) (K : ℕ) (h3 : 3 ≤ K) (hK : K < cs.length) :
    ∃ l, select_key_frames cs K = some l ∧
      l.length = max K (seedList cs.length).length ∧
      l.Sorted (· < ·) ∧ 0 ∈ l ∧ cs.length - 1 ∈ l := by
  refine ⟨selectCore cs K (min 5 (K / 3)) (cs.length / min 5 (K / 3)) (K / min 5 (K / 3)),
    ?_, ?_, ?_, ?_, ?_⟩
  · unfold select_key_frames
    dsimp only
    rw [if_neg (by omega : ¬ cs.length ≤ K), if_neg (by omega : ¬ min 5 (K / 3) = 0),
      if_neg ?_]
    have h1 : min 5 (K / 3) ≤ cs.length := by omega
    have h2 : 0 < min 5 (K / 3) := by omega
    have := Nat.div_pos h1 h2
    omega
  · exact selectCore_length cs K _ _ _ hK
  · exact selectCore_sorted cs K _ _ _
  · exact mem_selectCore_of_seed cs K _ _ _ 0 (zero_mem_seedList _)
  · exact mem_selectCore_of_seed cs K _ _ _ _ (last_mem_seedList _ (by omega))

/-- Witness for C1 (amended) at five frames and budget 3 (every index is
seeded there, so the selection has `max 3 5 = 5` elements). -/
theorem c1_amended_selection_witness :
    ∃ l, select_key_frames (List.replicate 5 (0 : ℚ)) 3 = some l ∧
      l.length = max 3 (seedList (List.replicate 5 (0 : ℚ)).length).length ∧
      l.Sorted (· < ·) ∧ 0 ∈ l ∧ (List.replicate 5 (0 : ℚ)).length - 1 ∈ l :=
  c1_amended_selection (List.replicate 5 (0 : ℚ)) 3 (by decide) (by decide)

unseal Rat.mul Rat.inv in
/-- C1 (counterexample): ten frames (none of whose images exist, so every
score is 0) with budget 3: the seed set `{0, 5, 6, 7, 8, 9}` already
exceeds the budget and is returned whole — 6 frames, not the claimed
exactly 3. -/
theorem c1_counterexample :
    select_key_frames (List.replicate 10 (0 : ℚ)) 3 = some [0, 5, 6, 7, 8, 9] ∧
    (select_key_frames (List.replicate 10 (0 : ℚ)) 3).map List.length ≠ some 3 := by
  constructor <;> decide
